/-
Verification of the `ox` editor's configuration subsystem (src/config.rs).

The data model (`Reader`, `General`, `Theme`, `Language`, `Status`) and the
operations (`read`, `get_syntax_regex`) are shallowly embedded from the Rust
source.  External collaborators are modelled abstractly:

* the file system: `read` takes the result of the file read as an
  `Option String` (the path-expansion step is purely external and does not
  affect any property stated here);
* the RON deserializer: a parameter `parse : String → Except String Reader`,
  whose error component stands for the debug rendering of `ron::Error`;
* the regex engine's compiler: a parameter `compile : String → Option Regex`,
  where `Regex` carries the pattern string it was compiled from
  (`Regex::new` succeeding is `some`, failing is `none`);
* Rust panics (the `.unwrap()` on keyword compilation, and the
  `config.languages[0]` index) are modelled by `get_syntax_regex` returning
  `none`.

Rust's `HashMap` is modelled as an association list with insert-replace
semantics (`mapInsert` / `mapLookup`); all observable properties below are
stated through `mapLookup`, so the arbitrary iteration order of the real
`HashMap` is immaterial (key sets of deserialized maps are duplicate-free,
which appears as a `Nodup` hypothesis where it matters).
-/
import Mathlib

namespace Ox

/-- Status enum for config reading (`enum Status` in config.rs). -/
inductive Status where
  | Parse (diagnostic : String)
  | File
  | Success
deriving DecidableEq

/-- General settings (`struct General`). Rust `usize`/`u64` become `Nat`. -/
structure General where
  line_number_padding_right : Nat
  line_number_padding_left : Nat
  tab_width : Nat
  undo_period : Nat
deriving DecidableEq

/-- Theme colours (`struct Theme`); an RGB triple of `u8` becomes a `Nat` triple. -/
structure Theme where
  editor_bg : Nat × Nat × Nat
  editor_fg : Nat × Nat × Nat
  status_bg : Nat × Nat × Nat
  status_fg : Nat × Nat × Nat
  line_number_fg : Nat × Nat × Nat
deriving DecidableEq

/-- Language information (`struct Language`); the `definitions` HashMap is an
association list. -/
structure Language where
  name : String
  icon : String
  extensions : List String
  keywords : List String
  definitions : List (String × List String)
deriving DecidableEq

/-- The configuration root (`struct Reader`). -/
structure Reader where
  general : General
  theme : Theme
  highlights : List (String × (Nat × Nat × Nat))
  languages : List Language
deriving DecidableEq

/-- A compiled regular expression, carrying the pattern it was compiled from.
The compiler itself (`Regex::new`) is external and is passed as a parameter
`compile : String → Option Regex` to the operations that use it. -/
structure Regex where
  pattern : String
deriving DecidableEq

/-- The `rust_kw` keyword list hard-coded in `Reader::read`. -/
def rust_kw : List String :=
  ["as", "break", "const", "continue", "crate", "else", "enum", "extern", "fn", "for",
   "if", "impl", "in", "let", "loop", "match", "mod", "move", "mut", "pub", "ref",
   "return", "self", "static", "struct", "super", "trait", "type", "unsafe", "use",
   "where", "while", "async", "await", "dyn", "abstract", "become", "box", "do", "final",
   "macro", "override", "priv", "typeof", "unsized", "virtual", "yield", "try", "\x27static"]

/-- The built-in default configuration, the `default` value hard-coded in
`Reader::read` (every constant transcribed verbatim from config.rs). -/
def defaultConfig : Reader where
  general :=
    { line_number_padding_right := 2
      line_number_padding_left := 1
      tab_width := 4
      undo_period := 5 }
  theme :=
    { editor_bg := (41, 41, 61)
      editor_fg := (255, 255, 255)
      status_bg := (59, 59, 84)
      status_fg := (35, 240, 144)
      line_number_fg := (65, 65, 98) }
  highlights :=
    [("comments", (113, 113, 169)),
     ("keywords", (134, 76, 232)),
     ("strings", (39, 222, 145)),
     ("characters", (40, 198, 232)),
     ("digits", (40, 198, 232)),
     ("booleans", (86, 217, 178)),
     ("functions", (47, 141, 252)),
     ("structs", (47, 141, 252)),
     ("macros", (223, 52, 249)),
     ("attributes", (40, 198, 232))]
  languages :=
    [{ name := "Rust"
       icon := "\ue7a8 "
       extensions := ["rs"]
       keywords := rust_kw
       definitions :=
         [("comments", ["(?m)(//.*)$"]),
          ("strings", ["(\".*?\")"]),
          ("characters", ["(\x27.\x27)"]),
          ("digits", ["(\\d+.\\d+|\\d+)"]),
          ("booleans", ["\\b(true|false)\\b"]),
          ("functions", ["\\b\\s+([a-z_]*)\\b\\("]),
          ("structs", ["\\b([A-Z][A-Za-z_]*)\\b\\s*\\\x7b"]),
          ("macros", ["\\b([a-z_][a-zA-Z_]*!)"]),
          ("attributes", ["(?m)^\\s*(#(?:!|)\\[.*?\\])"])] }]

/-- Debug rendering of the second parse attempt's `Result` value, as produced
by Rust's `Result` Debug implementation: an error `e` renders as
`Err(` followed by the error's own rendering and `)`.  The `ok` branch is
unreachable at the only call site (the parse is deterministic and the second
attempt repeats an input that already failed); its rendering is abbreviated. -/
def resultDebug (r : Except String Reader) : String :=
  match r with
  | Except.ok _ => "Ok(..)"
  | Except.error e => "Err(" ++ e ++ ")"

/-- `Reader::read`.  `fileContents` is the result of `fs::read_to_string` on
the (externally expanded) path: `none` when the read fails, `some file`
otherwise.  On a parse failure the error of the first attempt is discarded
and the parse re-run on the same input solely for the diagnostic text,
exactly as in the source. -/
def read (fileContents : Option String) (parse : String → Except String Reader) :
    Reader × Status :=
  match fileContents with
  | none => (defaultConfig, Status.File)
  | some file =>
    match parse file with
    | Except.ok contents => (contents, Status.Success)
    | Except.error _ =>
      (defaultConfig, Status.Parse (resultDebug (parse file)))

/-- Insert-replace into an association list: the model of `HashMap::insert`. -/
def mapInsert {α : Type} (m : List (String × α)) (k : String) (v : α) :
    List (String × α) :=
  match m with
  | [] => [(k, v)]
  | (k1, v1) :: rest => if k1 = k then (k, v) :: rest else (k1, v1) :: mapInsert rest k v

/-- Lookup in an association list: the model of `HashMap::get`. -/
def mapLookup {α : Type} (m : List (String × α)) (k : String) : Option α :=
  match m with
  | [] => none
  | (k1, v1) :: rest => if k1 = k then some v1 else mapLookup rest k

/-- Rust's `str::starts_with` for string literals. -/
def strStartsWith (s p : String) : Bool :=
  List.isPrefixOf p.data s.data

/-- The guard of the exclusion rule in `get_syntax_regex`: a pattern starting
with the mode marker "(?ms)" or "(?sm)". -/
def isSkipped (expr : String) : Bool :=
  strStartsWith expr "(?ms)" || strStartsWith expr "(?sm)"

/-- The inner pattern loop of `get_syntax_regex`: each pattern that is not
excluded by the mode-marker guard is compiled; a pattern that fails to
compile is dropped silently. -/
def compilePatterns (compile : String → Option Regex) : List String → List Regex
  | [] => []
  | expr :: rest =>
    if !(isSkipped expr) then
      match compile expr with
      | some regx => regx :: compilePatterns compile rest
      | none => compilePatterns compile rest
    else
      compilePatterns compile rest

/-- The keyword wrapping of `get_syntax_regex`: `\b({})\b` formatted with the
keyword. -/
def wrapKeyword (x : String) : String :=
  "\\b(" ++ x ++ ")\\b"

/-- The keyword loop of `get_syntax_regex`: every keyword is wrapped with
word-boundary anchors and compiled with `.unwrap()` — a failing compilation
is a panic, modelled by `none`. -/
def compileKeywords (compile : String → Option Regex) : List String → Option (List Regex)
  | [] => some []
  | x :: rest =>
    match compile (wrapKeyword x) with
    | some r =>
      match compileKeywords compile rest with
      | some rs => some (r :: rs)
      | none => none
    | none => none

/-- The definition-category loop of `get_syntax_regex`: each category of the
first language's definitions is compiled and inserted into the result map. -/
def insertDefs (compile : String → Option Regex) (defs : List (String × List String))
    (result : List (String × List Regex)) : List (String × List Regex) :=
  match defs with
  | [] => result
  | (name, reg) :: rest =>
    insertDefs compile rest (mapInsert result name (compilePatterns compile reg))

/-- The outer language loop of `get_syntax_regex`.  For every language whose
extension set contains the extension (the loop does not stop at the first
one), the categories of `config.languages[0]` are inserted, then the
"keywords" entry built from that language's keywords.  The
`config.languages[0]` index on an empty language list and a keyword that
fails to compile are panics, modelled by `none`. -/
def syntaxLoop (compile : String → Option Regex) (config : Reader) (extension : String) :
    List Language → List (String × List Regex) → Option (List (String × List Regex))
  | [], result => some result
  | lang :: rest, result =>
    if extension ∈ lang.extensions then
      match config.languages with
      | [] => none
      | l0 :: _ =>
        match compileKeywords compile lang.keywords with
        | some kws =>
          syntaxLoop compile config extension rest
            (mapInsert (insertDefs compile l0.definitions result) "keywords" kws)
        | none => none
    else
      syntaxLoop compile config extension rest result

/-- `Reader::get_syntax_regex` (CompileRules): compile the per-category
pattern strings and the keyword list of the language matching `extension`
into a category-to-pattern map. -/
def get_syntax_regex (compile : String → Option Regex) (config : Reader)
    (extension : String) : Option (List (String × List Regex)) :=
  syntaxLoop compile config extension config.languages []

/-- The last language of the list whose extension set contains the extension
(the language whose keywords the loop of `get_syntax_regex` ends up
keeping). -/
def lastMatch (extension : String) : List Language → Option Language
  | [] => none
  | lang :: rest =>
    match lastMatch extension rest with
    | some l => some l
    | none => if extension ∈ lang.extensions then some lang else none

/-- A word character in the sense of the regex engine's `\b` anchor. -/
def wordChar (c : Char) : Bool :=
  c.isAlphanum || c == '_'

/-- Word-character test of an optional character (out of range counts as
non-word). -/
def optWordChar : Option Char → Bool
  | none => false
  | some c => wordChar c

/-- The character just before position `p`, if any. -/
def charBefore (s : List Char) (p : Nat) : Option Char :=
  if p = 0 then none else s.get? (p - 1)

/-- A word boundary at position `p` of `s`: exactly one of the two adjacent
positions holds a word character. -/
def isBoundary (s : List Char) (p : Nat) : Bool :=
  optWordChar (charBefore s p) != optWordChar (s.get? p)

/-- The literal word `w` occurs at position `i` of `s` with word boundaries
on both sides. -/
def matchAt (w s : List Char) (i : Nat) : Bool :=
  ((s.drop i).take w.length == w) && isBoundary s i && isBoundary s (i + w.length)

/-- Semantics of the external regex engine on a pattern of the form
`\b(w)\b` where `w` is a literal word (the shape produced by
`wrapKeyword`), modelled from the engine's documented word-boundary
behaviour: the pattern matches `s` iff `w` occurs in `s` flanked by word
boundaries. -/
def wordBoundMatch (w s : List Char) : Bool :=
  (List.range (s.length + 1)).any (matchAt w s)

/-- Whether the compiled form of `wrapKeyword kw` matches the string `s`,
under the modelled word-boundary semantics. -/
def wrappedKeywordMatches (kw s : String) : Bool :=
  wordBoundMatch kw.data s.data

/-- A regex compiler that accepts every pattern; instantiates the external
`compile` parameter in concrete evaluations. -/
def okCompile : String → Option Regex :=
  fun s => some ⟨s⟩

/-- A regex compiler that rejects exactly the (malformed) pattern "(";
instantiates the external `compile` parameter where a compile failure is
needed. -/
def testCompile : String → Option Regex :=
  fun s => if s = "(" then none else some ⟨s⟩

/-- A deserializer that fails on every input, with a fixed diagnostic. -/
def badParse : String → Except String Reader :=
  fun _ => Except.error "ExpectedStruct"

/-- Concrete language A: claims extension "x". -/
def langA : Language where
  name := "A"
  icon := ""
  extensions := ["x"]
  keywords := ["fa"]
  definitions := [("comments", ["p1"])]

/-- Concrete language B: also claims extension "x". -/
def langB : Language where
  name := "B"
  icon := ""
  extensions := ["x"]
  keywords := ["fb"]
  definitions := [("comments", ["p2"])]

/-- A configuration with two languages claiming the same extension "x". -/
def testConfigAB : Reader where
  general := defaultConfig.general
  theme := defaultConfig.theme
  highlights := []
  languages := [langA, langB]

/-- Concrete language K: its definitions contain a category named
"keywords" whose sole pattern fails to compile under `testCompile`. -/
def langK : Language where
  name := "K"
  icon := ""
  extensions := ["k"]
  keywords := ["fn"]
  definitions := [("keywords", ["("])]

/-- A configuration exercising a user-supplied "keywords" category. -/
def testConfigK : Reader where
  general := defaultConfig.general
  theme := defaultConfig.theme
  highlights := []
  languages := [langK]

/-- Concrete language C: a "comments" category whose patterns are all
skipped or fail to compile under `testCompile`. -/
def langC : Language where
  name := "C"
  icon := ""
  extensions := ["c"]
  keywords := []
  definitions := [("comments", ["(?ms)x", "("])]

/-- A configuration whose only category loses all its patterns. -/
def testConfigC : Reader where
  general := defaultConfig.general
  theme := defaultConfig.theme
  highlights := []
  languages := [langC]

/-- Concrete language D: one ordinary category and one keyword. -/
def langD : Language where
  name := "D"
  icon := ""
  extensions := ["d"]
  keywords := ["kw"]
  definitions := [("comments", ["c1"])]

/-- A one-language configuration with a category and a keyword. -/
def testConfigD : Reader where
  general := defaultConfig.general
  theme := defaultConfig.theme
  highlights := []
  languages := [langD]

/-- A configuration with an empty language list. -/
def emptyConfig : Reader where
  general := defaultConfig.general
  theme := defaultConfig.theme
  highlights := []
  languages := []

theorem mapLookup_mapInsert_self {α : Type} (m : List (String × α)) (k : String) (v : α) :
    mapLookup (mapInsert m k v) k = some v := by
  induction m with
  | nil => simp [mapInsert, mapLookup]
  | cons p rest ih =>
    obtain ⟨k1, v1⟩ := p
    by_cases h : k1 = k
    · simp [mapInsert, h, mapLookup]
    · simp [mapInsert, h, mapLookup, ih]

theorem mapLookup_mapInsert_ne {α : Type} (m : List (String × α)) (k j : String) (v : α)
    (h : j ≠ k) : mapLookup (mapInsert m k v) j = mapLookup m j := by
  induction m with
  | nil => simp [mapInsert, mapLookup, Ne.symm h]
  | cons p rest ih =>
    obtain ⟨k1, v1⟩ := p
    by_cases h1 : k1 = k
    · subst h1
      simp [mapInsert, mapLookup, Ne.symm h]
    · simp [mapInsert, h1, mapLookup, ih]

theorem insertDefs_lookup_not_mem (compile : String → Option Regex) (k : String) :
    ∀ (defs : List (String × List String)) (r : List (String × List Regex)),
    k ∉ defs.map Prod.fst →
    mapLookup (insertDefs compile defs r) k = mapLookup r k := by
  intro defs
  induction defs with
  | nil => intro r _; simp [insertDefs]
  | cons p rest ih =>
    obtain ⟨name, reg⟩ := p
    intro r h
    simp only [List.map_cons, List.mem_cons] at h
    push_neg at h
    simp only [insertDefs]
    rw [ih _ h.2, mapLookup_mapInsert_ne _ _ _ _ h.1]

theorem insertDefs_lookup_mem (compile : String → Option Regex) (k : String)
    (v : List String) :
    ∀ (defs : List (String × List String)) (r : List (String × List Regex)),
    (defs.map Prod.fst).Nodup → (k, v) ∈ defs →
    mapLookup (insertDefs compile defs r) k = some (compilePatterns compile v) := by
  intro defs
  induction defs with
  | nil => intro r _ h; simp at h
  | cons p rest ih =>
    obtain ⟨name, reg⟩ := p
    intro r hnd hmem
    simp only [List.map_cons, List.nodup_cons] at hnd
    rcases List.mem_cons.mp hmem with heq | hmem2
    · injection heq with hk hv
      subst hk
      subst hv
      simp only [insertDefs]
      rw [insertDefs_lookup_not_mem compile k rest _ hnd.1]
      exact mapLookup_mapInsert_self _ _ _
    · simp only [insertDefs]
      exact ih _ hnd.2 hmem2

theorem syntaxLoop_no_match (compile : String → Option Regex) (config : Reader)
    (extension : String) :
    ∀ (langs : List Language) (r : List (String × List Regex)),
    (∀ lang ∈ langs, extension ∉ lang.extensions) →
    syntaxLoop compile config extension langs r = some r := by
  intro langs
  induction langs with
  | nil => intro r _; rfl
  | cons lang rest ih =>
    intro r h
    have h1 : extension ∉ lang.extensions := h lang (List.mem_cons_self _ _)
    simp only [syntaxLoop, if_neg h1]
    exact ih r (fun l hl => h l (List.mem_cons_of_mem _ hl))

theorem lastMatch_eq_none (extension : String) :
    ∀ langs : List Language, lastMatch extension langs = none →
    ∀ lang ∈ langs, extension ∉ lang.extensions := by
  intro langs
  induction langs with
  | nil => intro _ lang h; simp at h
  | cons a rest ih =>
    intro h lang hmem
    simp only [lastMatch] at h
    cases hr : lastMatch extension rest with
    | some l2 => rw [hr] at h; simp at h
    | none =>
      rw [hr] at h
      by_cases ha : extension ∈ a.extensions
      · rw [if_pos ha] at h; simp at h
      · rcases List.mem_cons.mp hmem with rfl | hm
        · exact ha
        · exact ih hr lang hm

theorem lastMatch_eq_some (extension : String) :
    ∀ (langs : List Language) (l : Language), lastMatch extension langs = some l →
    l ∈ langs ∧ extension ∈ l.extensions := by
  intro langs
  induction langs with
  | nil => intro l h; simp [lastMatch] at h
  | cons a rest ih =>
    intro l h
    simp only [lastMatch] at h
    cases hr : lastMatch extension rest with
    | some l2 =>
      rw [hr] at h
      simp only at h
      injection h with h2
      subst h2
      exact ⟨List.mem_cons_of_mem _ (ih _ hr).1, (ih _ hr).2⟩
    | none =>
      rw [hr] at h
      simp only at h
      by_cases ha : extension ∈ a.extensions
      · rw [if_pos ha] at h
        injection h with h2
        subst h2
        exact ⟨List.mem_cons_self _ _, ha⟩
      · rw [if_neg ha] at h
        simp at h

theorem lastMatch_unique (extension : String) :
    ∀ (langs : List Language) (lang : Language),
    lang ∈ langs → extension ∈ lang.extensions →
    (∀ l2 ∈ langs, extension ∈ l2.extensions → l2 = lang) →
    lastMatch extension langs = some lang := by
  intro langs
  induction langs with
  | nil => intro lang h _ _; simp at h
  | cons a rest ih =>
    intro lang hmem hext huniq
    simp only [lastMatch]
    cases hr : lastMatch extension rest with
    | some l2 =>
      have h2 := lastMatch_eq_some extension rest l2 hr
      rw [huniq l2 (List.mem_cons_of_mem _ h2.1) h2.2]
    | none =>
      rcases List.mem_cons.mp hmem with rfl | hm
      · rw [if_pos hext]
      · exact absurd hext (lastMatch_eq_none extension rest hr lang hm)

theorem syntaxLoop_keywords (compile : String → Option Regex) (config : Reader)
    (extension : String) :
    ∀ (langs : List Language) (r m : List (String × List Regex)),
    syntaxLoop compile config extension langs r = some m →
    ((lastMatch extension langs = none → m = r) ∧
     (∀ lang, lastMatch extension langs = some lang →
       ∃ kws, compileKeywords compile lang.keywords = some kws ∧
         mapLookup m "keywords" = some kws)) := by
  intro langs
  induction langs with
  | nil =>
    intro r m h
    simp only [syntaxLoop] at h
    constructor
    · intro _
      injection h with h2
      exact h2.symm
    · intro lang hl
      simp [lastMatch] at hl
  | cons lang rest ih =>
    intro r m h
    by_cases hm : extension ∈ lang.extensions
    · cases hcl : config.languages with
      | nil =>
        simp only [syntaxLoop, if_pos hm, hcl] at h
        exact Option.noConfusion h
      | cons l0 ls =>
        simp only [syntaxLoop, if_pos hm, hcl] at h
        cases hck : compileKeywords compile lang.keywords with
        | none => rw [hck] at h; simp at h
        | some kws =>
          rw [hck] at h
          simp only at h
          have hih := ih _ m h
          constructor
          · intro hlm
            exact absurd hm (lastMatch_eq_none extension _ hlm lang (List.mem_cons_self _ _))
          · intro lg hlg
            simp only [lastMatch] at hlg
            cases hr : lastMatch extension rest with
            | some l2 =>
              rw [hr] at hlg
              simp only at hlg
              injection hlg with h2
              subst h2
              exact hih.2 _ hr
            | none =>
              rw [hr] at hlg
              simp only at hlg
              rw [if_pos hm] at hlg
              injection hlg with h2
              subst h2
              have hmr := hih.1 hr
              subst hmr
              exact ⟨kws, hck, mapLookup_mapInsert_self _ _ _⟩
    · simp only [syntaxLoop, if_neg hm] at h
      have hih := ih _ m h
      constructor
      · intro hlm
        simp only [lastMatch] at hlm
        cases hr : lastMatch extension rest with
        | some l2 => rw [hr] at hlm; simp at hlm
        | none => exact hih.1 hr
      · intro lg hlg
        simp only [lastMatch] at hlg
        cases hr : lastMatch extension rest with
        | some l2 =>
          rw [hr] at hlg
          simp only at hlg
          injection hlg with h2
          subst h2
          exact hih.2 _ hr
        | none =>
          rw [hr] at hlg
          simp only [if_neg hm] at hlg
          exact Option.noConfusion hlg

theorem syntaxLoop_defs (compile : String → Option Regex) (config : Reader)
    (extension : String) (l0 : Language) (ls : List Language)
    (hcl : config.languages = l0 :: ls) (name : String) (v : List String)
    (hnd : (l0.definitions.map Prod.fst).Nodup)
    (hmem : (name, v) ∈ l0.definitions)
    (hne : name ≠ "keywords") :
    ∀ (langs : List Language) (r m : List (String × List Regex)),
    syntaxLoop compile config extension langs r = some m →
    (∃ lang ∈ langs, extension ∈ lang.extensions) →
    mapLookup m name = some (compilePatterns compile v) := by
  intro langs
  induction langs with
  | nil =>
    intro r m _ hex
    simp at hex
  | cons lang rest ih =>
    intro r m h hex
    by_cases hm : extension ∈ lang.extensions
    · simp only [syntaxLoop, if_pos hm, hcl] at h
      cases hck : compileKeywords compile lang.keywords with
      | none => rw [hck] at h; simp at h
      | some kws =>
        rw [hck] at h
        simp only at h
        by_cases hrest : ∃ lg ∈ rest, extension ∈ lg.extensions
        · exact ih _ m h hrest
        · have hnm : ∀ lg ∈ rest, extension ∉ lg.extensions := by
            intro lg hlg hc
            exact hrest ⟨lg, hlg, hc⟩
          rw [syntaxLoop_no_match compile config extension rest _ hnm] at h
          injection h with h2
          subst h2
          rw [mapLookup_mapInsert_ne _ _ _ _ hne]
          exact insertDefs_lookup_mem compile name v l0.definitions r hnd hmem
    · simp only [syntaxLoop, if_neg hm] at h
      rcases hex with ⟨lg, hlg, hext⟩
      rcases List.mem_cons.mp hlg with rfl | hlg2
      · exact absurd hext hm
      · exact ih r m h ⟨lg, hlg2, hext⟩

theorem compilePatterns_append (compile : String → Option Regex) :
    ∀ a b : List String,
    compilePatterns compile (a ++ b) =
      compilePatterns compile a ++ compilePatterns compile b := by
  intro a
  induction a with
  | nil => intro b; rfl
  | cons e rest ih =>
    intro b
    simp only [List.cons_append, compilePatterns]
    by_cases hs : isSkipped e
    · simp [hs, ih]
    · cases hc : compile e with
      | some r => simp [hs, hc, ih]
      | none => simp [hs, hc, ih]

theorem compilePatterns_filter (compile : String → Option Regex) :
    ∀ v : List String,
    compilePatterns compile v =
      compilePatterns compile (v.filter (fun e => !(isSkipped e))) := by
  intro v
  induction v with
  | nil => rfl
  | cons e rest ih =>
    by_cases hs : isSkipped e
    · simp [compilePatterns, List.filter_cons, hs, ih]
    · cases hc : compile e with
      | some r => simp [compilePatterns, List.filter_cons, hs, hc, ih]
      | none => simp [compilePatterns, List.filter_cons, hs, hc, ih]

theorem compilePatterns_eq_nil (compile : String → Option Regex) :
    ∀ v : List String, (∀ e ∈ v, isSkipped e = true ∨ compile e = none) →
    compilePatterns compile v = [] := by
  intro v
  induction v with
  | nil => intro _; rfl
  | cons e rest ih =>
    intro h
    have hrest := ih (fun x hx => h x (List.mem_cons_of_mem _ hx))
    rcases h e (List.mem_cons_self _ _) with hs | hc
    · simp [compilePatterns, hs, hrest]
    · by_cases hs : isSkipped e
      · simp [compilePatterns, hs, hrest]
      · simp [compilePatterns, hs, hc, hrest]

theorem compileKeywords_forall2 (compile : String → Option Regex) :
    ∀ (kws : List String) (rs : List Regex), compileKeywords compile kws = some rs →
    List.Forall₂ (fun x r => compile (wrapKeyword x) = some r) kws rs := by
  intro kws
  induction kws with
  | nil =>
    intro rs h
    injection h with h2
    subst h2
    exact List.Forall₂.nil
  | cons x rest ih =>
    intro rs h
    simp only [compileKeywords] at h
    cases hc : compile (wrapKeyword x) with
    | none => rw [hc] at h; exact Option.noConfusion h
    | some r =>
      rw [hc] at h
      simp only at h
      cases hr : compileKeywords compile rest with
      | none => rw [hr] at h; simp at h
      | some rs2 =>
        rw [hr] at h
        simp only at h
        injection h with h2
        subst h2
        exact List.Forall₂.cons hc (ih rs2 hr)

/-- Claim C1: for every path whose file read fails, `read` returns the
built-in default configuration paired with status `File` (FileNotFound),
and the default exactly matches the specified constants: left padding 1,
right padding 2, tab width 4, undo period 5; the specified five-colour
theme; a ten-entry highlight palette; and a single Rust language entry
carrying nine defined highlight categories. -/
theorem c1_load_failure_default (parse : String → Except String Reader) :
    read none parse = (defaultConfig, Status.File) ∧
    defaultConfig.general.line_number_padding_left = 1 ∧
    defaultConfig.general.line_number_padding_right = 2 ∧
    defaultConfig.general.tab_width = 4 ∧
    defaultConfig.general.undo_period = 5 ∧
    defaultConfig.theme =
      ⟨(41, 41, 61), (255, 255, 255), (59, 59, 84), (35, 240, 144), (65, 65, 98)⟩ ∧
    defaultConfig.highlights.length = 10 ∧
    defaultConfig.languages.map (fun l => (l.name, l.definitions.length)) = [("Rust", 9)] := by
  exact ⟨rfl, rfl, rfl, rfl, rfl, rfl, rfl, by decide⟩

/-- Claim C2: for every file whose contents parse unsuccessfully, `read`
returns the built-in default configuration with a `Parse` status whose
diagnostic re-renders the result of re-attempting the same parse (which
fails identically, the parse being a function of the input), and the
diagnostic is non-empty. -/
theorem c2_parse_error_default (parse : String → Except String Reader) (file e : String)
    (hp : parse file = Except.error e) :
    read (some file) parse = (defaultConfig, Status.Parse (resultDebug (parse file))) ∧
    resultDebug (parse file) = "Err(" ++ e ++ ")" ∧
    resultDebug (parse file) ≠ "" := by
  have h1 : resultDebug (parse file) = "Err(" ++ e ++ ")" := by rw [hp]; rfl
  refine ⟨?_, h1, ?_⟩
  · simp only [read, hp]
  · rw [h1]
    intro hc
    have h2 := congrArg String.length hc
    rw [String.length_append, String.length_append] at h2
    have h3 : ("Err(" : String).length = 4 := rfl
    have h4 : (")" : String).length = 1 := rfl
    have h5 : ("" : String).length = 0 := rfl
    omega

/-- Witness for C2 at a concrete failing parse. -/
theorem c2_parse_error_default_witness :
    badParse "bad" = Except.error "ExpectedStruct" ∧
    (read (some "bad") badParse =
      (defaultConfig, Status.Parse (resultDebug (badParse "bad"))) ∧
     resultDebug (badParse "bad") = "Err(" ++ "ExpectedStruct" ++ ")" ∧
     resultDebug (badParse "bad") ≠ "") :=
  ⟨rfl, c2_parse_error_default badParse "bad" "ExpectedStruct" rfl⟩

/-- Claim C3, counterexample: in `testConfigK` the first language's
definitions contain a category literally named "keywords" whose only
pattern is not mode-marked and fails to compile; the claim requires the
category to appear with an empty list, but the result's "keywords" entry
holds the compiled keyword pattern instead. -/
theorem c3_counterexample :
    testConfigK.languages = [langK] ∧
    langK.definitions = [("keywords", ["("])] ∧
    isSkipped "(" = false ∧
    testCompile "(" = none ∧
    get_syntax_regex testCompile testConfigK "k" =
      some [("keywords", [⟨"\\b(fn)\\b"⟩])] ∧
    mapLookup [("keywords", [(⟨"\\b(fn)\\b"⟩ : Regex)])] "keywords" ≠
      some ([] : List Regex) :=
  ⟨rfl, rfl, by decide, by decide, by decide, by decide⟩

/-- Claim C3, amended: in `get_syntax_regex`, for categories of the source
definitions other than one named "keywords", mode-marked patterns are
skipped, non-compiling patterns are dropped without affecting their
siblings, and a category losing all its patterns still appears with an
empty list (a category named "keywords" also appears, but its list is
replaced by the compiled keyword patterns). -/
theorem c3_amended (compile : String → Option Regex) (config : Reader)
    (extension : String) (m : List (String × List Regex)) (l0 : Language)
    (ls : List Language) (name : String) (v : List String)
    (h : get_syntax_regex compile config extension = some m)
    (hcl : config.languages = l0 :: ls)
    (hex : ∃ lang ∈ config.languages, extension ∈ lang.extensions)
    (hnd : (l0.definitions.map Prod.fst).Nodup)
    (hmem : (name, v) ∈ l0.definitions)
    (hne : name ≠ "keywords") :
    mapLookup m name = some (compilePatterns compile v) ∧
    compilePatterns compile v =
      compilePatterns compile (v.filter (fun e => !(isSkipped e))) ∧
    (∀ v1 e v2, v = v1 ++ e :: v2 → (isSkipped e = true ∨ compile e = none) →
      compilePatterns compile v = compilePatterns compile (v1 ++ v2)) ∧
    ((∀ e ∈ v, isSkipped e = true ∨ compile e = none) → mapLookup m name = some []) := by
  have hmain : mapLookup m name = some (compilePatterns compile v) :=
    syntaxLoop_defs compile config extension l0 ls hcl name v hnd hmem hne
      config.languages [] m h hex
  refine ⟨hmain, compilePatterns_filter compile v, ?_, ?_⟩
  · intro v1 e v2 hv hdrop
    subst hv
    rw [compilePatterns_append, compilePatterns_append]
    congr 1
    rcases hdrop with hs | hc
    · simp [compilePatterns, hs]
    · by_cases hs : isSkipped e
      · simp [compilePatterns, hs]
      · simp [compilePatterns, hs, hc]
  · intro hall
    rw [hmain, compilePatterns_eq_nil compile v hall]

/-- Witness for the amended C3: the "comments" category of `testConfigC`
loses both its patterns (one mode-marked, one non-compiling) and appears
with an empty list. -/
theorem c3_amended_witness :
    get_syntax_regex testCompile testConfigC "c" =
      some [("comments", []), ("keywords", [])] ∧
    (∀ e ∈ ["(?ms)x", "("], isSkipped e = true ∨ testCompile e = none) ∧
    mapLookup [("comments", ([] : List Regex)), ("keywords", [])] "comments" = some [] := by
  refine ⟨by decide, by decide, ?_⟩
  exact (c3_amended testCompile testConfigC "c"
      [("comments", []), ("keywords", [])] langC [] "comments" ["(?ms)x", "("]
      (by decide) rfl ⟨langC, by decide, by decide⟩ (by decide) (by decide)
      (by decide)).2.2.2 (by decide)

/-- Claim C4, counterexample: in `testConfigAB` both languages claim
extension "x"; the result's "keywords" entry is built from `langB`, the
last matching language, not from `langA`, the first one. -/
theorem c4_counterexample :
    testConfigAB.languages = [langA, langB] ∧
    "x" ∈ langA.extensions ∧
    "x" ∈ langB.extensions ∧
    langA ≠ langB ∧
    get_syntax_regex okCompile testConfigAB "x" =
      some [("comments", [⟨"p1"⟩]), ("keywords", [⟨"\\b(fb)\\b"⟩])] ∧
    mapLookup [("comments", [(⟨"p1"⟩ : Regex)]), ("keywords", [⟨"\\b(fb)\\b"⟩])]
        "keywords" ≠
      some (langA.keywords.map (fun x => (⟨wrapKeyword x⟩ : Regex))) :=
  ⟨rfl, by decide, by decide, by decide, by decide, by decide⟩

/-- Claim C4, amended: when several languages claim the same extension the
scan does not stop at the first one; the result's "keywords" entry comes
from the last language in the list whose extension set contains the
extension (category pattern definitions come from `languages[0]`
regardless). -/
theorem c4_amended_last_match (compile : String → Option Regex) (config : Reader)
    (extension : String) (m : List (String × List Regex)) (lang : Language)
    (h : get_syntax_regex compile config extension = some m)
    (hl : lastMatch extension config.languages = some lang) :
    ∃ kws, compileKeywords compile lang.keywords = some kws ∧
      mapLookup m "keywords" = some kws :=
  (syntaxLoop_keywords compile config extension config.languages [] m h).2 lang hl

/-- Witness for the amended C4 on the two-language configuration. -/
theorem c4_amended_last_match_witness :
    get_syntax_regex okCompile testConfigAB "x" =
      some [("comments", [(⟨"p1"⟩ : Regex)]), ("keywords", [⟨"\\b(fb)\\b"⟩])] ∧
    lastMatch "x" testConfigAB.languages = some langB ∧
    ∃ kws, compileKeywords okCompile langB.keywords = some kws ∧
      mapLookup [("comments", [(⟨"p1"⟩ : Regex)]), ("keywords", [⟨"\\b(fb)\\b"⟩])]
        "keywords" = some kws :=
  ⟨by decide, by decide,
   c4_amended_last_match okCompile testConfigAB "x"
     [("comments", [⟨"p1"⟩]), ("keywords", [⟨"\\b(fb)\\b"⟩])] langB
     (by decide) (by decide)⟩

/-- Claim C5: when exactly one language matches the extension, the compiled
category pattern definitions are drawn from the first language entry of the
list, while the compiled "keywords" entry is built from the matched
language's keyword list. -/
theorem c5_defs_from_first_entry (compile : String → Option Regex) (config : Reader)
    (extension : String) (m : List (String × List Regex)) (l0 : Language)
    (ls : List Language) (lang : Language)
    (h : get_syntax_regex compile config extension = some m)
    (hcl : config.languages = l0 :: ls)
    (hmem : lang ∈ config.languages)
    (hext : extension ∈ lang.extensions)
    (huniq : ∀ l2 ∈ config.languages, extension ∈ l2.extensions → l2 = lang)
    (hnd : (l0.definitions.map Prod.fst).Nodup) :
    (∀ name v, (name, v) ∈ l0.definitions → name ≠ "keywords" →
      mapLookup m name = some (compilePatterns compile v)) ∧
    (∃ kws, compileKeywords compile lang.keywords = some kws ∧
      mapLookup m "keywords" = some kws) := by
  constructor
  · intro name v hm hne
    exact syntaxLoop_defs compile config extension l0 ls hcl name v hnd hm hne
      config.languages [] m h ⟨lang, hmem, hext⟩
  · exact (syntaxLoop_keywords compile config extension config.languages [] m h).2 lang
      (lastMatch_unique extension config.languages lang hmem hext huniq)

/-- Witness for C5 on a concrete one-language configuration. -/
theorem c5_defs_from_first_entry_witness :
    get_syntax_regex okCompile testConfigD "d" =
      some [("comments", [(⟨"c1"⟩ : Regex)]), ("keywords", [⟨"\\b(kw)\\b"⟩])] ∧
    ((∀ name v, (name, v) ∈ langD.definitions → name ≠ "keywords" →
       mapLookup [("comments", [(⟨"c1"⟩ : Regex)]), ("keywords", [⟨"\\b(kw)\\b"⟩])]
         name = some (compilePatterns okCompile v)) ∧
     (∃ kws, compileKeywords okCompile langD.keywords = some kws ∧
       mapLookup [("comments", [(⟨"c1"⟩ : Regex)]), ("keywords", [⟨"\\b(kw)\\b"⟩])]
         "keywords" = some kws)) :=
  ⟨by decide,
   c5_defs_from_first_entry okCompile testConfigD "d"
     [("comments", [⟨"c1"⟩]), ("keywords", [⟨"\\b(kw)\\b"⟩])] langD [] langD
     (by decide) rfl (by decide) (by decide) (by decide) (by decide)⟩

/-- Claim C6: the "keywords" entry is built by wrapping each keyword of the
matched language with word-boundary anchors before compiling it, and under
the modelled word-boundary semantics the wrapped pattern for keyword "fn"
matches the isolated token in "fn main()" but not the substring inside
"function". -/
theorem c6_keyword_wrapping (compile : String → Option Regex) (config : Reader)
    (extension : String) (m : List (String × List Regex)) (lang : Language)
    (h : get_syntax_regex compile config extension = some m)
    (hl : lastMatch extension config.languages = some lang) :
    (∃ kws, compileKeywords compile lang.keywords = some kws ∧
      List.Forall₂ (fun x r => compile (wrapKeyword x) = some r) lang.keywords kws ∧
      mapLookup m "keywords" = some kws) ∧
    wrapKeyword "fn" = "\\b(fn)\\b" ∧
    wrappedKeywordMatches "fn" "fn main()" = true ∧
    wrappedKeywordMatches "fn" "function" = false := by
  refine ⟨?_, rfl, by decide, by decide⟩
  obtain ⟨kws, hck, hlk⟩ :=
    (syntaxLoop_keywords compile config extension config.languages [] m h).2 lang hl
  exact ⟨kws, hck, compileKeywords_forall2 compile lang.keywords kws hck, hlk⟩

/-- Witness for C6 on a concrete one-language configuration. -/
theorem c6_keyword_wrapping_witness :
    get_syntax_regex okCompile testConfigD "d" =
      some [("comments", [(⟨"c1"⟩ : Regex)]), ("keywords", [⟨"\\b(kw)\\b"⟩])] ∧
    lastMatch "d" testConfigD.languages = some langD ∧
    ((∃ kws, compileKeywords okCompile langD.keywords = some kws ∧
       List.Forall₂ (fun x r => okCompile (wrapKeyword x) = some r) langD.keywords kws ∧
       mapLookup [("comments", [(⟨"c1"⟩ : Regex)]), ("keywords", [⟨"\\b(kw)\\b"⟩])]
         "keywords" = some kws) ∧
     wrapKeyword "fn" = "\\b(fn)\\b" ∧
     wrappedKeywordMatches "fn" "fn main()" = true ∧
     wrappedKeywordMatches "fn" "function" = false) :=
  ⟨by decide, by decide,
   c6_keyword_wrapping okCompile testConfigD "d"
     [("comments", [⟨"c1"⟩]), ("keywords", [⟨"\\b(kw)\\b"⟩])] langD
     (by decide) (by decide)⟩

/-- Claim C7: when no language's extension set contains the extension,
`get_syntax_regex` returns the empty mapping, not an error. -/
theorem c7_unknown_extension_empty (compile : String → Option Regex) (config : Reader)
    (extension : String)
    (h : ∀ lang ∈ config.languages, extension ∉ lang.extensions) :
    get_syntax_regex compile config extension = some [] :=
  syntaxLoop_no_match compile config extension config.languages [] h

/-- Witness for C7: the default configuration declares no language for
extension "xyz". -/
theorem c7_unknown_extension_empty_witness :
    (∀ lang ∈ defaultConfig.languages, "xyz" ∉ lang.extensions) ∧
    get_syntax_regex okCompile defaultConfig "xyz" = some [] :=
  ⟨by decide, c7_unknown_extension_empty okCompile defaultConfig "xyz" (by decide)⟩

/-- Claim C9: with an empty language list the loop body never runs, so the
`languages[0]` index is never evaluated and `get_syntax_regex` returns the
empty mapping without a panic. -/
theorem c9_empty_languages_no_panic (compile : String → Option Regex) (config : Reader)
    (extension : String) (h : config.languages = []) :
    get_syntax_regex compile config extension = some [] := by
  unfold get_syntax_regex
  rw [h]
  rfl

/-- Witness for C9 on a configuration with no languages. -/
theorem c9_empty_languages_no_panic_witness :
    emptyConfig.languages = [] ∧
    get_syntax_regex okCompile emptyConfig "rs" = some [] :=
  ⟨rfl, c9_empty_languages_no_panic okCompile emptyConfig "rs" rfl⟩

/-- Claim C10: when the first language's definitions contain a category
named "keywords", the definition loop first installs its compiled patterns,
and the keyword insertion performed afterwards overwrites that entry with
the patterns derived from the matched language's keyword list, so
user-supplied "keywords" pattern strings never survive into the output. -/
theorem c10_keywords_overwritten (compile : String → Option Regex) (config : Reader)
    (extension : String) (m : List (String × List Regex)) (l0 : Language)
    (ls : List Language) (lang : Language) (pats : List String)
    (h : get_syntax_regex compile config extension = some m)
    (hcl : config.languages = l0 :: ls)
    (hl : lastMatch extension config.languages = some lang)
    (hnd : (l0.definitions.map Prod.fst).Nodup)
    (hmem : ("keywords", pats) ∈ l0.definitions) :
    ∃ kws, compileKeywords compile lang.keywords = some kws ∧
      mapLookup m "keywords" = some kws ∧
      (∀ r, mapLookup (insertDefs compile l0.definitions r) "keywords" =
          some (compilePatterns compile pats) ∧
        mapLookup (mapInsert (insertDefs compile l0.definitions r) "keywords" kws)
          "keywords" = some kws) := by
  obtain ⟨kws, hck, hlk⟩ :=
    (syntaxLoop_keywords compile config extension config.languages [] m h).2 lang hl
  refine ⟨kws, hck, hlk, fun r => ⟨?_, ?_⟩⟩
  · exact insertDefs_lookup_mem compile "keywords" pats l0.definitions r hnd hmem
  · exact mapLookup_mapInsert_self _ _ _

/-- Witness for C10: `testConfigK` supplies a user "keywords" category whose
pattern is discarded in favour of the compiled keyword list. -/
theorem c10_keywords_overwritten_witness :
    get_syntax_regex testCompile testConfigK "k" =
      some [("keywords", [(⟨"\\b(fn)\\b"⟩ : Regex)])] ∧
    lastMatch "k" testConfigK.languages = some langK ∧
    ("keywords", ["("]) ∈ langK.definitions ∧
    ∃ kws, compileKeywords testCompile langK.keywords = some kws ∧
      mapLookup [("keywords", [(⟨"\\b(fn)\\b"⟩ : Regex)])] "keywords" = some kws ∧
      (∀ r, mapLookup (insertDefs testCompile langK.definitions r) "keywords" =
          some (compilePatterns testCompile ["("]) ∧
        mapLookup (mapInsert (insertDefs testCompile langK.definitions r) "keywords" kws)
          "keywords" = some kws) :=
  ⟨by decide, by decide, by decide,
   c10_keywords_overwritten testCompile testConfigK "k"
     [("keywords", [⟨"\\b(fn)\\b"⟩])] langK [] langK ["("]
     (by decide) rfl (by decide) (by decide) (by decide)⟩

end Ox
